import Mathlib

/-!
Shallow embedding of the style-transfer engine in `neural_net.py` (the core of the
Art-generator repository): the content/style cost model, pixel clipping, the
training loop with best-cost tracking and cooperative cancellation, and raster
encoding (`tensor_to_image`).

Modelling conventions:
- an activation tensor of shape `(1, H, W, C)` is a function
  `Fin H → Fin W → Fin C → ℚ` (the batch dimension, always 1, is dropped and the
  spatial/channel dimensions live in the type);
- floating-point arithmetic is modelled by exact rationals; the three kinds of
  float value the loop's control flow actually distinguishes (finite, `+inf`,
  `NaN`) are modelled explicitly by `FloatVal` where comparisons matter;
- Python exceptions (empty-list indexing, shape mismatch in `tf.reshape` /
  `tf.subtract`, `a_G[i]` out of range) are modelled by `Option`/`Except`.
-/

/-- An activation tensor of shape `(1, H, W, C)` with the batch dimension dropped. -/
def Tensor (H W C : ℕ) : Type := Fin H → Fin W → Fin C → ℚ

/-- Sum over all elements of the squared elementwise difference:
`tf.reduce_sum(tf.square(tf.subtract(a, b)))`. -/
def sumSqDiff {H W C : ℕ} (a b : Tensor H W C) : ℚ :=
  ∑ i, ∑ j, ∑ k, (a i j k - b i j k) ^ 2

/-- The channel-major reshape of `neural_net.py` lines 73-74:
`tf.reshape(tf.transpose(a, perm=[0,3,1,2]), [n_C, n_H*n_W])`.  Entry `(c, (h,w))`
of the result is `a[0][h][w][c]`; the column index set `Fin H × Fin W` stands for
`Fin (H*W)` under the row-major enumeration of spatial positions, which leaves
every matrix product below unchanged. -/
def reshape_cm {H W C : ℕ} (t : Tensor H W C) : Matrix (Fin C) (Fin H × Fin W) ℚ :=
  Matrix.of fun c p => t p.1 p.2 c

/-- The Gram matrix `G = a · aᵗ` of the reshaped activation (lines 77-78). -/
def gram_matrix {H W C : ℕ} (t : Tensor H W C) : Matrix (Fin C) (Fin C) ℚ :=
  reshape_cm t * (reshape_cm t).transpose

/-- `compute_layer_style_cost` (lines 56-81): the sum of squared differences of
the two Gram matrices, divided by `(2 * n_C * n_H * n_W)**2`.  The source reads
the dimensions off `a_G` and reshapes both tensors with them; here both tensors
carry the same shape in their type, the only situation the source's reshape
accepts with identically-shaped inputs. -/
def compute_layer_style_cost {H W C : ℕ} (a_S a_G : Tensor H W C) : ℚ :=
  (∑ c, ∑ c2, (gram_matrix a_S c c2 - gram_matrix a_G c c2) ^ 2) /
    (2 * (C : ℚ) * (H : ℚ) * (W : ℚ)) ^ 2

/-- An activation tensor of runtime-determined shape, as carried in the Python
lists that `compute_content_cost` / `compute_style_cost` receive. -/
structure Act where
  H : ℕ
  W : ℕ
  C : ℕ
  data : Tensor H W C

/-- Transport a tensor along equalities of its dimensions. -/
def castT {H W C H2 W2 C2 : ℕ} (hH : H = H2) (hW : W = W2) (hC : C = C2)
    (t : Tensor H W C) : Tensor H2 W2 C2 :=
  fun i j k => t (Fin.cast hH.symm i) (Fin.cast hW.symm j) (Fin.cast hC.symm k)

/-- `compute_layer_style_cost` on runtime-shaped tensors: the source's
`tf.reshape`/`tf.subtract` succeed on the identically-shaped activations the
engine feeds it and raise otherwise; mismatched shapes give `none`. -/
def layer_style_cost_act (a_S a_G : Act) : Option ℚ :=
  if hH : a_S.H = a_G.H then
    if hW : a_S.W = a_G.W then
      if hC : a_S.C = a_G.C then
        some (compute_layer_style_cost (castT hH hW hC a_S.data) a_G.data)
      else none
    else none
  else none

/-- `compute_content_cost` (lines 35-53): takes the last element of each
activation list (`content_output[-1]`, `generated_output[-1]`; empty lists and
mismatched shapes raise in Python, giving `none` here), and returns the summed
squared difference divided by `4*n_H*n_W*n_C` read off `a_G`. -/
def compute_content_cost (content_output generated_output : List Act) : Option ℚ :=
  match content_output.getLast?, generated_output.getLast? with
  | some aC, some aG =>
    if hH : aC.H = aG.H then
      if hW : aC.W = aG.W then
        if hC : aC.C = aG.C then
          some (sumSqDiff (castT hH hW hC aC.data) aG.data /
            (4 * (aG.H : ℚ) * (aG.W : ℚ) * (aG.C : ℚ)))
        else none
      else none
    else none
  | _, _ => none

/-- The loop of `compute_style_cost` (lines 96-113):
`for i, weight in zip(range(len(a_S)), layers): J += weight[1] * cost(a_S[i], a_G[i])`.
The iteration count is `min (len a_S) (len layers)` (the `zip`); indexing
`a_G[i]` raises `IndexError` when `a_G` is exhausted first, modelled by `none`. -/
def styleCostAux : List Act → List Act → List (String × ℚ) → Option ℚ
  | [], _, _ => some 0
  | _ :: _, _, [] => some 0
  | s :: ss, g :: gs, w :: ws =>
    match layer_style_cost_act s g, styleCostAux ss gs ws with
    | some c, some r => some (w.2 * c + r)
    | _, _ => none
  | _ :: _, [], _ :: _ => none

/-- `compute_style_cost` (lines 83-113): drops the trailing content-layer
element of both activation lists (`[:-1]`) and runs the weighted loop. -/
def compute_style_cost (style_image_output generated_image_output : List Act)
    (layers : List (String × ℚ)) : Option ℚ :=
  styleCostAux style_image_output.dropLast generated_image_output.dropLast layers

/-- Default `alpha` of `total_cost` (line 116). -/
def DEFAULT_ALPHA : ℚ := 10

/-- Default `beta` of `total_cost` (line 116). -/
def DEFAULT_BETA : ℚ := 40

/-- `total_cost` (lines 115-129): `alpha * J_content + beta * J_style`. -/
def total_cost (J_content J_style alpha beta : ℚ) : ℚ :=
  alpha * J_content + beta * J_style

/-- The `STYLE_LAYERS` configuration of `generate` (lines 189-194). -/
def STYLE_LAYERS : List (String × ℚ) :=
  [("block1_conv1", 1/5), ("block2_conv1", 1/5), ("block3_conv1", 1/5),
   ("block4_conv1", 1/5), ("block5_conv1", 1/5)]

/-- A constant 1×1×1 activation with value 1, for concrete evaluations. -/
def tOne : Tensor 1 1 1 := fun _ _ _ => 1

/-- A constant 1×1×1 activation with value 0, for concrete evaluations. -/
def tZero : Tensor 1 1 1 := fun _ _ _ => 0

/-- A style/generated activation pair of one layer (the engine feeds
`compute_style_cost` two activation lists of identical per-layer shapes, both
produced by the same model on lines 202/206/219). -/
structure ActPair where
  H : ℕ
  W : ℕ
  C : ℕ
  aS : Tensor H W C
  aG : Tensor H W C

/-- The style-side activation of a pair. -/
def ActPair.styleAct (x : ActPair) : Act := ⟨x.H, x.W, x.C, x.aS⟩

/-- The generated-side activation of a pair. -/
def ActPair.genAct (x : ActPair) : Act := ⟨x.H, x.W, x.C, x.aG⟩

/-- The per-layer style cost of a pair. -/
def ActPair.layerCost (x : ActPair) : ℚ := compute_layer_style_cost x.aS x.aG

/-- A concrete one-layer activation pair for witnesses. -/
def pairOne : ActPair := ⟨1, 1, 1, tOne, tZero⟩

/-- `clip_0_1` (lines 139-150): `tf.clip_by_value(img, 0.0, 1.0)` elementwise on
the flattened generated-image tensor. -/
def clip_0_1 (img : List ℚ) : List ℚ :=
  img.map fun x => max 0 (min x 1)

/-- `tf.image.convert_image_dtype(·, tf.float32)` on a uint8 image: divide each
pixel by 255 (lines 133 and 201). -/
def convert_image_dtype (img : List ℤ) : List ℚ :=
  img.map fun v => (v : ℚ) / 255

/-- `initialize_generated_image` (lines 131-137): normalize the content image,
add the sampled noise elementwise, clip to [0,1].  The noise list is a parameter
(the source draws it uniformly from [-0.25, 0.25]; the clip bound below holds
for every noise). -/
def init_generated_image (content : List ℤ) (noise : List ℚ) : List ℚ :=
  clip_0_1 (List.zipWith (fun a b => a + b) (convert_image_dtype content) noise)

/-- One `_train_step` (lines 212-235) as it acts on the generated image: the
gradient-tape/optimizer update (TensorFlow internals, abstracted as an arbitrary
function `update`) followed by `generated_image.assign(clip_0_1(generated_image))`. -/
def train_step (update : List ℚ → List ℚ) (img : List ℚ) : List ℚ :=
  clip_0_1 (update img)

/-- A float value as the loop's comparison distinguishes them: finite, `+inf`
(the initial `best_cost = float('inf')`, line 238) or `NaN`. -/
inductive FloatVal where
  | fin : ℚ → FloatVal
  | inf : FloatVal
  | nan : FloatVal
deriving DecidableEq

/-- IEEE-754 `<` as Python evaluates `cost < best_cost` (line 242): any
comparison involving `NaN` is false, and every finite value is below `+inf`. -/
def flt : FloatVal → FloatVal → Bool
  | FloatVal.fin a, FloatVal.fin b => decide (a < b)
  | FloatVal.fin _, FloatVal.inf => true
  | FloatVal.fin _, FloatVal.nan => false
  | FloatVal.inf, _ => false
  | FloatVal.nan, _ => false

/-- The mutable state of the epoch loop (lines 238-248): the generated image,
the best cost and its epoch, and the progress messages emitted so far. -/
structure LoopAcc where
  img : List ℚ
  best : FloatVal
  bestEpoch : ℕ
  progress : List (ℕ × FloatVal)
deriving DecidableEq

/-- The epoch loop of `generate` (lines 240-248), parameterized by the per-epoch
cost (`costs i` is what `_train_step` returns at epoch `i`), the optimizer update
on the image, and the cancellation flag as observed at the end of each epoch
(`cancelledAt i = true` means `self.training` was found false after epoch `i`).
`rem` is the number of loop iterations left, `i` the current epoch index; the
returned `ℕ` counts the epochs actually executed. -/
def runFrom (update : List ℚ → List ℚ) (costs : ℕ → FloatVal) (cancelledAt : ℕ → Bool)
    (epochs : ℕ) : ℕ → ℕ → LoopAcc → LoopAcc × ℕ
  | 0, _, acc => (acc, 0)
  | rem + 1, i, acc =>
    let img2 := train_step update acc.img
    let cost := costs i
    let best2 := if flt cost acc.best then cost else acc.best
    let bestEpoch2 := if flt cost acc.best then i else acc.bestEpoch
    let progress2 := if i % 10 = 0 ∨ (i : ℤ) = (epochs : ℤ) - 1
      then acc.progress ++ [(i, cost)] else acc.progress
    let acc2 : LoopAcc := ⟨img2, best2, bestEpoch2, progress2⟩
    if cancelledAt i then (acc2, 1)
    else
      let r := runFrom update costs cancelledAt epochs rem (i + 1) acc2
      (r.1, r.2 + 1)

/-- The observable outcome of `ImageGenerator.generate` (lines 238-254). -/
structure GenOutcome where
  bestCost : FloatVal
  bestEpoch : ℕ
  progress : List (ℕ × FloatVal)
  optimalTraced : Bool
  savedImage : List ℚ
  wrote : Bool
  epochsRun : ℕ
deriving DecidableEq

/-- `ImageGenerator.generate` after the images have been loaded (lines 183-254):
initialize the generated image, run the epoch loop, emit the best-cost trace
exactly when `best_epoch != epochs - 1` (line 250, an `int` comparison, so
`epochs = 0` compares `0 != -1`), then unconditionally encode and save the
current image (lines 252-253). -/
def generate (update : List ℚ → List ℚ) (costs : ℕ → FloatVal) (cancelledAt : ℕ → Bool)
    (content : List ℤ) (noise : List ℚ) (epochs : ℕ) : GenOutcome :=
  let img0 := init_generated_image content noise
  let r := runFrom update costs cancelledAt epochs epochs 0 ⟨img0, FloatVal.inf, 0, []⟩
  ⟨r.1.best, r.1.bestEpoch, r.1.progress,
    decide ((r.1.bestEpoch : ℤ) ≠ (epochs : ℤ) - 1),
    r.1.img, true, r.2⟩

/-- The observables of a whole `generate` call including image loading:
`get_np_images` (line 182) runs before the model is built, before the loop and
before any trace or file write, so a load failure (`Image.open` raising) leaves
no progress messages and no written file.  The triple is (progress messages,
whether an output file was written, result). -/
def generate_obs (load : Except Unit (List ℤ × List ℤ))
    (update : List ℚ → List ℚ) (costs : ℕ → FloatVal) (cancelledAt : ℕ → Bool)
    (noise : List ℚ) (epochs : ℕ) :
    List (ℕ × FloatVal) × Bool × Except Unit GenOutcome :=
  match load with
  | Except.error e => ([], false, Except.error e)
  | Except.ok imgs =>
    let g := generate update costs cancelledAt imgs.1 noise epochs
    (g.progress, g.wrote, Except.ok g)

/-- The best-cost/best-epoch tracking of lines 238-244 in isolation: fold the
per-epoch costs over the state `(best_cost, best_epoch)`, replacing it exactly
on a strict `<`. -/
def bestAux (costs : ℕ → FloatVal) : ℕ → ℕ → FloatVal × ℕ → FloatVal × ℕ
  | 0, _, p => p
  | rem + 1, i, p =>
    bestAux costs rem (i + 1) (if flt (costs i) p.1 then (costs i, i) else p)

/-- Truncation toward zero: the behaviour of NumPy's float-to-uint8 value
conversion (a C-style cast). -/
def truncToInt (q : ℚ) : ℤ := if 0 ≤ q then ⌊q⌋ else ⌈q⌉

/-- The per-pixel conversion of `tensor_to_image` (lines 162-163):
`tensor = tensor * 255` then `np.array(tensor, dtype=np.uint8)` — a cast that
truncates toward zero and wraps modulo 256; it does not round and does not
clamp. -/
def float_to_uint8 (q : ℚ) : ℤ := truncToInt (q * 255) % 256

/-- `tensor_to_image` (lines 152-167) on a batched tensor (a list of flattened
images): asserts the batch dimension is 1 (line 165), strips it, and converts
every pixel. -/
def tensor_to_image (batched : List (List ℚ)) : Option (List ℤ) :=
  match batched with
  | [img] => some (img.map float_to_uint8)
  | _ => none

lemma sum_sq2_eq_zero_iff {n m : Type} [Fintype n] [Fintype m] (f : n → m → ℚ) :
    (∑ i, ∑ j, f i j ^ 2) = 0 ↔ ∀ i j, f i j = 0 := by
  rw [Finset.sum_eq_zero_iff_of_nonneg
    (fun i _ => Finset.sum_nonneg fun j _ => sq_nonneg _)]
  constructor
  · intro h i j
    have h1 := h i (Finset.mem_univ i)
    rw [Finset.sum_eq_zero_iff_of_nonneg (fun j _ => sq_nonneg _)] at h1
    exact sq_eq_zero_iff.mp (h1 j (Finset.mem_univ j))
  · intro h i _
    refine Finset.sum_eq_zero fun j _ => ?_
    rw [h i j]
    ring

lemma sum_sq3_eq_zero_iff {n m p : Type} [Fintype n] [Fintype m] [Fintype p]
    (f : n → m → p → ℚ) :
    (∑ i, ∑ j, ∑ k, f i j k ^ 2) = 0 ↔ ∀ i j k, f i j k = 0 := by
  rw [Finset.sum_eq_zero_iff_of_nonneg
    (fun i _ => Finset.sum_nonneg fun j _ => Finset.sum_nonneg fun k _ => sq_nonneg _)]
  constructor
  · intro h i j k
    have h1 := h i (Finset.mem_univ i)
    rw [Finset.sum_eq_zero_iff_of_nonneg
      (fun j _ => Finset.sum_nonneg fun k _ => sq_nonneg _)] at h1
    have h2 := h1 j (Finset.mem_univ j)
    rw [Finset.sum_eq_zero_iff_of_nonneg (fun k _ => sq_nonneg _)] at h2
    exact sq_eq_zero_iff.mp (h2 k (Finset.mem_univ k))
  · intro h i _
    refine Finset.sum_eq_zero fun j _ => Finset.sum_eq_zero fun k _ => ?_
    rw [h i j k]
    ring

lemma sumSqDiff_eq_zero_iff {H W C : ℕ} (a b : Tensor H W C) :
    sumSqDiff a b = 0 ↔ a = b := by
  unfold sumSqDiff
  rw [sum_sq3_eq_zero_iff (fun i j k => a i j k - b i j k)]
  constructor
  · intro h
    funext i j k
    exact sub_eq_zero.mp (h i j k)
  · intro h i j k
    rw [h]
    ring

lemma tensor_eq_of_dim_zero {H W C : ℕ} (h : H = 0 ∨ W = 0 ∨ C = 0)
    (a b : Tensor H W C) : a = b := by
  funext i j k
  rcases h with h | h | h
  · subst h; exact i.elim0
  · subst h; exact j.elim0
  · subst h; exact k.elim0

lemma gram_matrix_apply {H W C : ℕ} (t : Tensor H W C) (c c2 : Fin C) :
    gram_matrix t c c2 = ∑ q : Fin H × Fin W, t q.1 q.2 c * t q.1 q.2 c2 := by
  simp [gram_matrix, reshape_cm, Matrix.mul_apply, Matrix.transpose_apply]

lemma gram_matrix_eq_of_spatial_zero {H W C : ℕ} (h : H = 0 ∨ W = 0)
    (a b : Tensor H W C) : gram_matrix a = gram_matrix b := by
  ext c c2
  rw [gram_matrix_apply, gram_matrix_apply]
  rcases h with h | h
  · subst h
    simp
  · subst h
    simp

lemma castT_rfl {H W C : ℕ} (t : Tensor H W C) : castT rfl rfl rfl t = t := rfl

/-- C2: the per-layer style cost equals the sum of squared differences of the two
C×C Gram matrices (formed as `a · aᵗ` after the channel-major reshape), divided
by `(2·C·H·W)²`; it is non-negative for all inputs, and zero exactly when the
two Gram matrices are elementwise equal. -/
theorem C2_layer_style_cost_spec {H W C : ℕ} (a_S a_G : Tensor H W C) :
    compute_layer_style_cost a_S a_G =
      (∑ c, ∑ c2, (gram_matrix a_S c c2 - gram_matrix a_G c c2) ^ 2) /
        (2 * (C : ℚ) * (H : ℚ) * (W : ℚ)) ^ 2
    ∧ 0 ≤ compute_layer_style_cost a_S a_G
    ∧ (compute_layer_style_cost a_S a_G = 0 ↔ gram_matrix a_S = gram_matrix a_G) := by
  refine ⟨rfl, ?_, ?_⟩
  · unfold compute_layer_style_cost
    apply div_nonneg
    · exact Finset.sum_nonneg fun c _ => Finset.sum_nonneg fun c2 _ => sq_nonneg _
    · positivity
  · unfold compute_layer_style_cost
    rw [div_eq_zero_iff]
    constructor
    · rintro (h | h)
      · have h2 := (sum_sq2_eq_zero_iff
          (fun c c2 => gram_matrix a_S c c2 - gram_matrix a_G c c2)).mp h
        ext c c2
        exact sub_eq_zero.mp (h2 c c2)
      · have h0 : 2 * (C : ℚ) * (H : ℚ) * (W : ℚ) = 0 := sq_eq_zero_iff.mp h
        have h1 : (C : ℚ) = 0 ∨ (H : ℚ) = 0 ∨ (W : ℚ) = 0 := by
          rcases mul_eq_zero.mp h0 with h3 | h3
          · rcases mul_eq_zero.mp h3 with h4 | h4
            · rcases mul_eq_zero.mp h4 with h5 | h5
              · norm_num at h5
              · exact Or.inl h5
            · exact Or.inr (Or.inl h4)
          · exact Or.inr (Or.inr h3)
        rcases h1 with h1 | h1 | h1
        · have hC : C = 0 := Nat.cast_eq_zero.mp h1
          subst hC
          ext c c2
          exact c.elim0
        · exact gram_matrix_eq_of_spatial_zero (Or.inl (Nat.cast_eq_zero.mp h1)) a_S a_G
        · exact gram_matrix_eq_of_spatial_zero (Or.inr (Nat.cast_eq_zero.mp h1)) a_S a_G
    · intro h
      left
      rw [sum_sq2_eq_zero_iff (fun c c2 => gram_matrix a_S c c2 - gram_matrix a_G c c2)]
      intro c c2
      rw [h]
      ring

/-- C3: the content cost is computed from the last element of each activation
list only; it equals the summed squared difference of those two activations
divided by `4·H·W·C` of that layer's shape, and it is `0` exactly when the two
final activations are elementwise identical. -/
theorem C3_content_cost_spec {H W C : ℕ} (cs gs : List Act) (aC aG : Tensor H W C)
    (hc : cs.getLast? = some ⟨H, W, C, aC⟩) (hg : gs.getLast? = some ⟨H, W, C, aG⟩) :
    compute_content_cost cs gs =
      some (sumSqDiff aC aG / (4 * (H : ℚ) * (W : ℚ) * (C : ℚ)))
    ∧ (compute_content_cost cs gs = some 0 ↔ aC = aG) := by
  have heval : compute_content_cost cs gs =
      some (sumSqDiff aC aG / (4 * (H : ℚ) * (W : ℚ) * (C : ℚ))) := by
    unfold compute_content_cost
    rw [hc, hg]
    simp only [castT_rfl]
    rfl
  refine ⟨heval, ?_⟩
  rw [heval]
  rw [Option.some_inj]
  rw [div_eq_zero_iff]
  constructor
  · rintro (h | h)
    · exact (sumSqDiff_eq_zero_iff aC aG).mp h
    · have h1 : (H : ℚ) = 0 ∨ (W : ℚ) = 0 ∨ (C : ℚ) = 0 := by
        rcases mul_eq_zero.mp h with h3 | h3
        · rcases mul_eq_zero.mp h3 with h4 | h4
          · rcases mul_eq_zero.mp h4 with h5 | h5
            · norm_num at h5
            · exact Or.inl h5
          · exact Or.inr (Or.inl h4)
        · exact Or.inr (Or.inr h3)
      refine tensor_eq_of_dim_zero ?_ aC aG
      rcases h1 with h1 | h1 | h1
      · exact Or.inl (Nat.cast_eq_zero.mp h1)
      · exact Or.inr (Or.inl (Nat.cast_eq_zero.mp h1))
      · exact Or.inr (Or.inr (Nat.cast_eq_zero.mp h1))
  · intro h
    left
    exact (sumSqDiff_eq_zero_iff aC aG).mpr h

/-- Witness for C3: a concrete pair of one-element activation lists. -/
theorem C3_content_cost_spec_witness :
    ([Act.mk 1 1 1 tOne].getLast? = some ⟨1, 1, 1, tOne⟩
      ∧ [Act.mk 1 1 1 tZero].getLast? = some ⟨1, 1, 1, tZero⟩)
    ∧ (compute_content_cost [Act.mk 1 1 1 tOne] [Act.mk 1 1 1 tZero] =
        some (sumSqDiff tOne tZero / (4 * (1 : ℚ) * (1 : ℚ) * (1 : ℚ)))
      ∧ (compute_content_cost [Act.mk 1 1 1 tOne] [Act.mk 1 1 1 tZero] = some 0 ↔
          tOne = tZero)) :=
  ⟨⟨rfl, rfl⟩, C3_content_cost_spec [Act.mk 1 1 1 tOne] [Act.mk 1 1 1 tZero]
    tOne tZero rfl rfl⟩

lemma layer_style_cost_act_pair (x : ActPair) :
    layer_style_cost_act x.styleAct x.genAct = some x.layerCost := by
  unfold layer_style_cost_act ActPair.styleAct ActPair.genAct
  dsimp only
  rw [dif_pos rfl, dif_pos rfl, dif_pos rfl]
  rfl

lemma styleCostAux_zip (pairs : List ActPair) :
    ∀ ws : List (String × ℚ),
      styleCostAux (pairs.map ActPair.styleAct) (pairs.map ActPair.genAct) ws =
        some (((ws.zip pairs).map fun y => y.1.2 * y.2.layerCost).sum) := by
  induction pairs with
  | nil =>
    intro ws
    cases ws <;> simp [styleCostAux]
  | cons p ps ih =>
    intro ws
    cases ws with
    | nil => simp [styleCostAux]
    | cons w ws2 =>
      simp [styleCostAux, layer_style_cost_act_pair, ih ws2]

lemma styleCost_zip (pairs : List ActPair) (ws : List (String × ℚ)) (cS cG : Act) :
    compute_style_cost (pairs.map ActPair.styleAct ++ [cS])
        (pairs.map ActPair.genAct ++ [cG]) ws =
      some (((ws.zip pairs).map fun y => y.1.2 * y.2.layerCost).sum) := by
  unfold compute_style_cost
  rw [List.dropLast_concat, List.dropLast_concat]
  exact styleCostAux_zip pairs ws

/-- C4: on activation lists whose final (content-layer) element is excluded and
whose weight list matches the style layers in length, the aggregate style cost
is the positionally-weighted sum of per-layer style costs over the style layers
only, and the total cost with the default weights is `10·J_content + 40·J_style`. -/
theorem C4_style_and_total_cost_spec (pairs : List ActPair) (ws : List (String × ℚ))
    (cS cG : Act) (hlen : ws.length = pairs.length) (Jc Js : ℚ) :
    compute_style_cost (pairs.map ActPair.styleAct ++ [cS])
        (pairs.map ActPair.genAct ++ [cG]) ws =
      some (((ws.zip pairs).map fun y => y.1.2 * y.2.layerCost).sum)
    ∧ (ws.zip pairs).length = pairs.length
    ∧ total_cost Jc Js DEFAULT_ALPHA DEFAULT_BETA = 10 * Jc + 40 * Js := by
  refine ⟨styleCost_zip pairs ws cS cG, ?_, rfl⟩
  rw [List.length_zip, hlen, min_self]

/-- Witness for C4: one style layer with weight 1/5 and a trailing content layer. -/
theorem C4_style_and_total_cost_spec_witness :
    [("block1_conv1", (1 : ℚ)/5)].length = [pairOne].length
    ∧ (compute_style_cost ([pairOne].map ActPair.styleAct ++ [Act.mk 1 1 1 tZero])
          ([pairOne].map ActPair.genAct ++ [Act.mk 1 1 1 tZero])
          [("block1_conv1", (1 : ℚ)/5)] =
        some ((([("block1_conv1", (1 : ℚ)/5)].zip [pairOne]).map
          fun y => y.1.2 * y.2.layerCost).sum)
      ∧ ([("block1_conv1", (1 : ℚ)/5)].zip [pairOne]).length = [pairOne].length
      ∧ total_cost 1 2 DEFAULT_ALPHA DEFAULT_BETA = 10 * 1 + 40 * 2) :=
  ⟨rfl, C4_style_and_total_cost_spec [pairOne] [("block1_conv1", (1 : ℚ)/5)]
    (Act.mk 1 1 1 tZero) (Act.mk 1 1 1 tZero) rfl 1 2⟩

/-- C10 (implicit): `compute_style_cost` pairs weights and style activations with
`zip`, so a length mismatch between the weight list and the style activations
never fails: the result is always `some`, and exactly the first
`min (number of weights) (number of activations - 1)` layers are summed, the
surplus of either list being ignored. -/
theorem C10_style_cost_zip_spec (pairs : List ActPair) (ws : List (String × ℚ))
    (cS cG : Act) :
    compute_style_cost (pairs.map ActPair.styleAct ++ [cS])
        (pairs.map ActPair.genAct ++ [cG]) ws =
      some (((ws.zip pairs).map fun y => y.1.2 * y.2.layerCost).sum)
    ∧ (ws.zip pairs).length = min ws.length pairs.length
    ∧ (pairs.map ActPair.styleAct ++ [cS]).length = pairs.length + 1 := by
  refine ⟨styleCost_zip pairs ws cS cG, by simp, by simp⟩

lemma mem_clip_0_1 {x : ℚ} {l : List ℚ} (h : x ∈ clip_0_1 l) : 0 ≤ x ∧ x ≤ 1 := by
  unfold clip_0_1 at h
  rcases List.mem_map.mp h with ⟨y, _, rfl⟩
  exact ⟨le_max_left 0 _, max_le (by norm_num) (min_le_right y 1)⟩

/-- C1: after initialization and immediately after each epoch's clip step (the
clip that ends `_train_step`), every element of the generated image lies in
`[0, 1]` — for every optimizer update, content image, noise sample and epoch
count. -/
theorem C1_pixel_range_invariant (update : List ℚ → List ℚ) (content : List ℤ)
    (noise : List ℚ) (k : ℕ) :
    ∀ x ∈ (train_step update)^[k] (init_generated_image content noise),
      0 ≤ x ∧ x ≤ 1 := by
  intro x hx
  cases k with
  | zero =>
    rw [Function.iterate_zero_apply] at hx
    exact mem_clip_0_1 hx
  | succ n =>
    rw [Function.iterate_succ_apply'] at hx
    exact mem_clip_0_1 hx

/-- Witness for C1: a content pixel of 300 (above 255) with zero noise clips to 1. -/
theorem C1_pixel_range_invariant_witness :
    (1 : ℚ) ∈ (train_step id)^[0] (init_generated_image [300] [0])
    ∧ (0 ≤ (1 : ℚ) ∧ (1 : ℚ) ≤ 1) := by
  have hmem : (1 : ℚ) ∈ (train_step id)^[0] (init_generated_image [300] [0]) := by
    rw [Function.iterate_zero_apply]
    norm_num [init_generated_image, clip_0_1, convert_image_dtype]
  exact ⟨hmem, C1_pixel_range_invariant id [300] [0] 0 1 hmem⟩

lemma flt_nan_left (b : FloatVal) : flt FloatVal.nan b = false := by
  cases b <;> rfl

lemma runFrom_no_cancel_count (update : List ℚ → List ℚ) (costs : ℕ → FloatVal)
    (epochs : ℕ) :
    ∀ rem i acc, (runFrom update costs (fun _ => false) epochs rem i acc).2 = rem := by
  intro rem
  induction rem with
  | zero => intro i acc; rfl
  | succ n ih =>
    intro i acc
    simp only [runFrom, Bool.false_eq_true, if_false]
    rw [ih]

lemma runFrom_nan_best (update : List ℚ → List ℚ) (cancelledAt : ℕ → Bool)
    (epochs : ℕ) :
    ∀ rem i acc,
      (runFrom update (fun _ => FloatVal.nan) cancelledAt epochs rem i acc).1.best
          = acc.best
      ∧ (runFrom update (fun _ => FloatVal.nan) cancelledAt epochs rem i acc).1.bestEpoch
          = acc.bestEpoch := by
  intro rem
  induction rem with
  | zero => intro i acc; exact ⟨rfl, rfl⟩
  | succ n ih =>
    intro i acc
    simp only [runFrom, flt_nan_left, Bool.false_eq_true, if_false]
    by_cases h : cancelledAt i
    · simp [h]
    · simp only [h, Bool.false_eq_true, if_false]
      exact ih (i + 1) _

/-- C6 counterexample: a run whose cost is NaN at every epoch still executes all
3 configured epochs and still writes the output image — the claimed abort /
`Failed` transition / suppressed write do not exist in the code. -/
theorem C6_counterexample :
    (generate id (fun _ => FloatVal.nan) (fun _ => false) [] [] 3).wrote = true
    ∧ (generate id (fun _ => FloatVal.nan) (fun _ => false) [] [] 3).epochsRun = 3 := by
  exact ⟨rfl, by decide⟩

/-- C6 amended: `generate` performs no finiteness check at all.  With a
non-finite (NaN) cost at every epoch the loop still runs all configured epochs,
the output image is still written, and the NaN costs are merely invisible to the
best tracker (`NaN < best` is false), which stays at its initial `+inf` /
epoch 0. -/
theorem C6_no_nan_abort (update : List ℚ → List ℚ) (content : List ℤ)
    (noise : List ℚ) (epochs : ℕ) :
    (generate update (fun _ => FloatVal.nan) (fun _ => false) content noise epochs).wrote
        = true
    ∧ (generate update (fun _ => FloatVal.nan) (fun _ => false) content noise epochs).epochsRun
        = epochs
    ∧ (generate update (fun _ => FloatVal.nan) (fun _ => false) content noise epochs).bestCost
        = FloatVal.inf
    ∧ (generate update (fun _ => FloatVal.nan) (fun _ => false) content noise epochs).bestEpoch
        = 0 := by
  refine ⟨rfl, ?_, ?_, ?_⟩
  · exact runFrom_no_cancel_count update (fun _ => FloatVal.nan) epochs epochs 0 _
  · exact (runFrom_nan_best update (fun _ => false) epochs epochs 0 _).1
  · exact (runFrom_nan_best update (fun _ => false) epochs epochs 0 _).2

lemma runFrom_img_iterate (update : List ℚ → List ℚ) (costs : ℕ → FloatVal)
    (cancelledAt : ℕ → Bool) (epochs : ℕ) :
    ∀ rem i acc,
      (runFrom update costs cancelledAt epochs rem i acc).1.img
        = (train_step update)^[(runFrom update costs cancelledAt epochs rem i acc).2]
            acc.img := by
  intro rem
  induction rem with
  | zero => intro i acc; rfl
  | succ n ih =>
    intro i acc
    simp only [runFrom]
    by_cases h : cancelledAt i
    · simp [h]
    · simp only [h, Bool.false_eq_true, if_false]
      rw [ih (i + 1)]
      rw [Function.iterate_succ_apply]

/-- C7: on every terminal outcome of the loop — full completion or cancellation
at any epoch — `generate` writes the generated image's current (last-executed-
epoch) value, not the tracked best-cost value, and the best-epoch discrepancy is
reported only through the trace channel, emitted exactly when the best epoch
differs from the configured final epoch `epochs - 1` (an integer comparison). -/
theorem C7_saves_current_image (update : List ℚ → List ℚ) (costs : ℕ → FloatVal)
    (cancelledAt : ℕ → Bool) (content : List ℤ) (noise : List ℚ) (epochs : ℕ) :
    (generate update costs cancelledAt content noise epochs).savedImage
      = (train_step update)^[(generate update costs cancelledAt content noise epochs).epochsRun]
          (init_generated_image content noise)
    ∧ ((generate update costs cancelledAt content noise epochs).optimalTraced = true
        ↔ ((generate update costs cancelledAt content noise epochs).bestEpoch : ℤ)
            ≠ (epochs : ℤ) - 1)
    ∧ (generate update costs cancelledAt content noise epochs).wrote = true := by
  refine ⟨?_, ?_, rfl⟩
  · exact runFrom_img_iterate update costs cancelledAt epochs epochs 0 _
  · exact decide_eq_true_iff

/-- C8: when loading the content/style images fails (`Image.open` raising on a
missing or undecodable path, line 182, before the model, the loop, any trace
call and the final save), `generate` surfaces the load error, emits no progress
message and writes no output file. -/
theorem C8_load_error_no_side_effects (update : List ℚ → List ℚ)
    (costs : ℕ → FloatVal) (cancelledAt : ℕ → Bool) (noise : List ℚ) (epochs : ℕ)
    (load : Except Unit (List ℤ × List ℤ)) (e : Unit) (h : load = Except.error e) :
    generate_obs load update costs cancelledAt noise epochs
      = ([], false, Except.error e) := by
  subst h
  rfl

/-- Witness for C8: a failed load with a 5-epoch configuration. -/
theorem C8_load_error_no_side_effects_witness :
    ((Except.error () : Except Unit (List ℤ × List ℤ)) = Except.error ())
    ∧ generate_obs (Except.error ()) id (fun _ => FloatVal.fin 0) (fun _ => false) [] 5
        = ([], false, Except.error ()) :=
  ⟨rfl, C8_load_error_no_side_effects id (fun _ => FloatVal.fin 0) (fun _ => false)
    [] 5 (Except.error ()) () rfl⟩

lemma runFrom_no_cancel_best (update : List ℚ → List ℚ) (costs : ℕ → FloatVal)
    (epochs : ℕ) :
    ∀ rem i acc,
      ((runFrom update costs (fun _ => false) epochs rem i acc).1.best,
       (runFrom update costs (fun _ => false) epochs rem i acc).1.bestEpoch)
        = bestAux costs rem i (acc.best, acc.bestEpoch) := by
  intro rem
  induction rem with
  | zero => intro i acc; rfl
  | succ n ih =>
    intro i acc
    simp only [runFrom, Bool.false_eq_true, if_false, bestAux]
    rw [ih (i + 1)]
    by_cases h : flt (costs i) acc.best
    · simp [h]
    · simp [h]

lemma bestAux_fin_lb (csq : ℕ → ℚ) :
    ∀ rem i b e q2 e2,
      bestAux (fun j => FloatVal.fin (csq j)) rem i (FloatVal.fin b, e) = (q2, e2) →
      ∃ q, q2 = FloatVal.fin q ∧ q ≤ b ∧ ∀ j, i ≤ j → j < i + rem → q ≤ csq j := by
  intro rem
  induction rem with
  | zero =>
    intro i b e q2 e2 h
    have h1 := congrArg Prod.fst h
    exact ⟨b, h1.symm, le_refl b, fun j hj1 hj2 => absurd hj2 (by omega)⟩
  | succ n ih =>
    intro i b e q2 e2 h
    by_cases hlt : csq i < b
    · have hstep : bestAux (fun j => FloatVal.fin (csq j)) (n + 1) i (FloatVal.fin b, e)
          = bestAux (fun j => FloatVal.fin (csq j)) n (i + 1) (FloatVal.fin (csq i), i) := by
        simp [bestAux, flt, hlt]
      rw [hstep] at h
      obtain ⟨q, hq1, hq2, hq3⟩ := ih (i + 1) (csq i) i q2 e2 h
      refine ⟨q, hq1, le_of_lt (lt_of_le_of_lt hq2 hlt), ?_⟩
      intro j hj1 hj2
      by_cases hj : j = i
      · subst hj; exact hq2
      · exact hq3 j (by omega) (by omega)
    · have hstep : bestAux (fun j => FloatVal.fin (csq j)) (n + 1) i (FloatVal.fin b, e)
          = bestAux (fun j => FloatVal.fin (csq j)) n (i + 1) (FloatVal.fin b, e) := by
        simp [bestAux, flt, hlt]
      rw [hstep] at h
      obtain ⟨q, hq1, hq2, hq3⟩ := ih (i + 1) b e q2 e2 h
      refine ⟨q, hq1, hq2, ?_⟩
      intro j hj1 hj2
      by_cases hj : j = i
      · subst hj; exact le_trans hq2 (not_lt.mp hlt)
      · exact hq3 j (by omega) (by omega)

lemma bestAux_fin_first (csq : ℕ → ℚ) :
    ∀ rem i b e q2 e2,
      bestAux (fun j => FloatVal.fin (csq j)) rem i (FloatVal.fin b, e) = (q2, e2) →
      (q2 = FloatVal.fin b ∧ e2 = e)
      ∨ (i ≤ e2 ∧ e2 < i + rem ∧ q2 = FloatVal.fin (csq e2) ∧ csq e2 < b
          ∧ ∀ j, i ≤ j → j < e2 → csq e2 < csq j) := by
  intro rem
  induction rem with
  | zero =>
    intro i b e q2 e2 h
    exact Or.inl ⟨(congrArg Prod.fst h).symm, (congrArg Prod.snd h).symm⟩
  | succ n ih =>
    intro i b e q2 e2 h
    by_cases hlt : csq i < b
    · have hstep : bestAux (fun j => FloatVal.fin (csq j)) (n + 1) i (FloatVal.fin b, e)
          = bestAux (fun j => FloatVal.fin (csq j)) n (i + 1) (FloatVal.fin (csq i), i) := by
        simp [bestAux, flt, hlt]
      rw [hstep] at h
      rcases ih (i + 1) (csq i) i q2 e2 h with ⟨h1, h2⟩ | ⟨h1, h2, h3, h4, h5⟩
      · refine Or.inr ⟨le_of_eq h2.symm, by omega, ?_, ?_, ?_⟩
        · rw [h2]; exact h1
        · rw [h2]; exact hlt
        · intro j hj1 hj2
          exact absurd hj2 (by omega)
      · refine Or.inr ⟨by omega, by omega, h3, lt_trans h4 hlt, ?_⟩
        intro j hj1 hj2
        by_cases hj : j = i
        · subst hj; exact h4
        · exact h5 j (by omega) hj2
    · have hstep : bestAux (fun j => FloatVal.fin (csq j)) (n + 1) i (FloatVal.fin b, e)
          = bestAux (fun j => FloatVal.fin (csq j)) n (i + 1) (FloatVal.fin b, e) := by
        simp [bestAux, flt, hlt]
      rw [hstep] at h
      rcases ih (i + 1) b e q2 e2 h with ⟨h1, h2⟩ | ⟨h1, h2, h3, h4, h5⟩
      · exact Or.inl ⟨h1, h2⟩
      · refine Or.inr ⟨by omega, by omega, h3, h4, ?_⟩
        intro j hj1 hj2
        by_cases hj : j = i
        · subst hj; exact lt_of_lt_of_le h4 (not_lt.mp hlt)
        · exact h5 j (by omega) hj2

/-- C5: after `N ≥ 1` epochs without cancellation and with finite per-epoch
costs, the recorded best cost is the minimum of the costs of epochs `0..N-1`,
and the recorded best epoch is the first epoch at which that minimum occurred
(the best is only replaced by a strictly lower cost). -/
theorem C5_best_cost_tracking (update : List ℚ → List ℚ) (csq : ℕ → ℚ)
    (content : List ℤ) (noise : List ℚ) (N : ℕ) (hN : 1 ≤ N) :
    (generate update (fun i => FloatVal.fin (csq i)) (fun _ => false) content noise N).bestEpoch
        < N
    ∧ (generate update (fun i => FloatVal.fin (csq i)) (fun _ => false) content noise N).bestCost
        = FloatVal.fin (csq (generate update (fun i => FloatVal.fin (csq i)) (fun _ => false)
            content noise N).bestEpoch)
    ∧ (∀ j, j < N →
        csq (generate update (fun i => FloatVal.fin (csq i)) (fun _ => false)
            content noise N).bestEpoch ≤ csq j)
    ∧ (∀ j, j < (generate update (fun i => FloatVal.fin (csq i)) (fun _ => false)
            content noise N).bestEpoch →
        csq (generate update (fun i => FloatVal.fin (csq i)) (fun _ => false)
            content noise N).bestEpoch < csq j) := by
  obtain ⟨n, rfl⟩ : ∃ n, N = n + 1 := ⟨N - 1, by omega⟩
  have hcorr :
      ((generate update (fun i => FloatVal.fin (csq i)) (fun _ => false)
          content noise (n + 1)).bestCost,
       (generate update (fun i => FloatVal.fin (csq i)) (fun _ => false)
          content noise (n + 1)).bestEpoch)
        = bestAux (fun i => FloatVal.fin (csq i)) (n + 1) 0 (FloatVal.inf, 0) :=
    runFrom_no_cancel_best update (fun i => FloatVal.fin (csq i)) (n + 1) (n + 1) 0 _
  have hstep : bestAux (fun i => FloatVal.fin (csq i)) (n + 1) 0 (FloatVal.inf, 0)
      = bestAux (fun i => FloatVal.fin (csq i)) n 1 (FloatVal.fin (csq 0), 0) := by
    simp [bestAux, flt]
  rw [hstep] at hcorr
  obtain ⟨q, hq1, hq2, hq3⟩ :=
    bestAux_fin_lb csq n 1 (csq 0) 0 _ _ hcorr.symm
  rcases bestAux_fin_first csq n 1 (csq 0) 0 _ _ hcorr.symm with
    ⟨h1, h2⟩ | ⟨h1, h2, h3, h4, h5⟩
  · rw [h2]
    have hq0 : q = csq 0 := FloatVal.fin.inj (hq1.symm.trans h1)
    subst hq0
    refine ⟨by omega, h1, ?_, ?_⟩
    · intro j hj
      by_cases hj0 : j = 0
      · subst hj0; exact le_refl _
      · exact hq3 j (by omega) (by omega)
    · intro j hj
      exact absurd hj (by omega)
  · have hq0 : q = csq (generate update (fun i => FloatVal.fin (csq i)) (fun _ => false)
        content noise (n + 1)).bestEpoch := FloatVal.fin.inj (hq1.symm.trans h3)
    subst hq0
    refine ⟨by omega, h3, ?_, ?_⟩
    · intro j hj
      by_cases hj0 : j = 0
      · subst hj0; exact le_of_lt h4
      · exact hq3 j (by omega) (by omega)
    · intro j hj
      by_cases hj0 : j = 0
      · subst hj0; exact h4
      · exact h5 j (by omega) hj

/-- Witness for C5: a single epoch with constant cost 5. -/
theorem C5_best_cost_tracking_witness :
    1 ≤ 1
    ∧ ((generate id (fun _ => FloatVal.fin 5) (fun _ => false) [] [] 1).bestEpoch < 1
      ∧ (generate id (fun _ => FloatVal.fin 5) (fun _ => false) [] [] 1).bestCost
          = FloatVal.fin 5
      ∧ (∀ j, j < 1 → (5 : ℚ) ≤ 5)
      ∧ (∀ j, j < (generate id (fun _ => FloatVal.fin 5) (fun _ => false) [] [] 1).bestEpoch
          → (5 : ℚ) < 5)) :=
  ⟨le_refl 1, C5_best_cost_tracking id (fun _ => 5) [] [] 1 (le_refl 1)⟩

/-- C9 counterexample: at the in-range pixel value 1/2 the code yields
`⌊127.5⌋ = 127`, while the claimed rounding yields `128` — the conversion
truncates, it does not round. -/
theorem C9_counterexample :
    tensor_to_image [[(1 : ℚ)/2]] = some [127]
    ∧ round ((1 : ℚ)/2 * 255) = 128 := by
  constructor
  · norm_num [tensor_to_image, float_to_uint8, truncToInt]
  · rw [round_eq]
    norm_num

/-- C9 amended: `tensor_to_image` strips the leading batch-of-1 dimension and
rescales each normalized pixel `q ∈ [0,1]` to the integer `⌊q·255⌋` — by
truncation toward zero, not rounding — which lands in `0..255` without any
clamping being involved. -/
theorem C9_tensor_to_image_truncates (img : List ℚ)
    (h : ∀ q ∈ img, 0 ≤ q ∧ q ≤ 1) :
    tensor_to_image [img] = some (img.map fun q => ⌊q * 255⌋)
    ∧ ∀ z ∈ img.map (fun q => ⌊q * 255⌋), 0 ≤ z ∧ z ≤ 255 := by
  have hfloor : ∀ q : ℚ, 0 ≤ q → q ≤ 1 → 0 ≤ ⌊q * 255⌋ ∧ ⌊q * 255⌋ ≤ 255 := by
    intro q h0 h1
    have hq0 : (0 : ℚ) ≤ q * 255 := by positivity
    have hq255 : q * 255 ≤ 255 := by nlinarith
    constructor
    · exact Int.le_floor.mpr (by exact_mod_cast hq0)
    · have hle : (⌊q * 255⌋ : ℚ) ≤ 255 := le_trans (Int.floor_le (q * 255)) hq255
      exact_mod_cast hle
  constructor
  · show some (img.map float_to_uint8) = _
    congr 1
    apply List.map_congr_left
    intro q hq
    obtain ⟨h0, h1⟩ := h q hq
    have hq0 : (0 : ℚ) ≤ q * 255 := by positivity
    unfold float_to_uint8 truncToInt
    rw [if_pos hq0]
    obtain ⟨hl, hr⟩ := hfloor q h0 h1
    exact Int.emod_eq_of_lt hl (by omega)
  · intro z hz
    rcases List.mem_map.mp hz with ⟨q, hq, rfl⟩
    obtain ⟨h0, h1⟩ := h q hq
    exact hfloor q h0 h1

/-- Witness for C9 (amended): the pixels 1/2 and 1 map to 127 and 255. -/
theorem C9_tensor_to_image_truncates_witness :
    (∀ q ∈ [(1 : ℚ)/2, 1], 0 ≤ q ∧ q ≤ 1)
    ∧ (tensor_to_image [[(1 : ℚ)/2, 1]] = some ([(1 : ℚ)/2, 1].map fun q => ⌊q * 255⌋)
      ∧ ∀ z ∈ [(1 : ℚ)/2, 1].map (fun q => ⌊q * 255⌋), 0 ≤ z ∧ z ≤ 255) := by
  have hin : ∀ q ∈ [(1 : ℚ)/2, 1], 0 ≤ q ∧ q ≤ 1 := by
    intro q hq
    simp only [List.mem_cons, List.not_mem_nil, or_false] at hq
    rcases hq with rfl | rfl
    · norm_num
    · norm_num
  exact ⟨hin, C9_tensor_to_image_truncates [(1 : ℚ)/2, 1] hin⟩
